import Mathlib

/-!
Verification of the streaming progress interpreter, progress extractors,
chunk decoder, result classifiers and runner outcome handling of
src/pydism.py, as a shallow embedding.  Progress percentages (Python
floats parsed from decimal digit strings) are modelled as rationals;
text is modelled as lists of characters; byte streams as lists of
naturals below 256.
-/

/-- Characters of a string literal, used to write text inputs. -/
def str (s : String) : List Char := s.toList

/-- The three one-time notices run_dism_command's progress branch can print
(lines 132-148 of src/pydism.py). -/
inductive DismNotice where
  | pausePhase
  | check65Complete
  | nearly90Complete
deriving Repr, DecidableEq

/-- The interpreter state local to one run_dism_command call:
`last_progress` (initially None) and `pause_notified` (initially False),
lines 111-112. -/
structure DismProgressState where
  last_progress : Option ℚ
  pause_notified : Bool
deriving Repr, DecidableEq

/-- The state run_dism_command initialises at lines 111-112. -/
def initDismProgressState : DismProgressState := ⟨none, false⟩

/-- Python's `last_progress and last_progress < t`: the stored value is
truthy (present and nonzero) and below the threshold. -/
def prevTruthyBelow (lp : Option ℚ) (t : ℚ) : Bool :=
  match lp with
  | none => false
  | some q => decide (q ≠ 0) && decide (q < t)

/-- One progress update, lines 130-150: the if/elif chain checks the
62-63 pause first, then the 65 crossing, then the 90 crossing, and stores
the new value regardless of which branch fired. -/
def dismProgressStep (st : DismProgressState) (p : ℚ) :
    DismProgressState × List DismNotice :=
  if 62 ≤ p ∧ p ≤ 63 ∧ st.pause_notified = false then
    (⟨some p, true⟩, [DismNotice.pausePhase])
  else if 65 ≤ p ∧ prevTruthyBelow st.last_progress 65 = true then
    (⟨some p, st.pause_notified⟩, [DismNotice.check65Complete])
  else if 90 ≤ p ∧ prevTruthyBelow st.last_progress 90 = true then
    (⟨some p, st.pause_notified⟩, [DismNotice.nearly90Complete])
  else
    (⟨some p, st.pause_notified⟩, [])

/-- The notices printed for each update of a progress sequence, starting
from a given interpreter state. -/
def dismProgressTraceFrom (st : DismProgressState) : List ℚ → List (List DismNotice)
  | [] => []
  | p :: rest =>
      (dismProgressStep st p).2 ::
        dismProgressTraceFrom (dismProgressStep st p).1 rest

/-- Per-update notices of one run, which starts from the fresh state of
lines 111-112. -/
def dismProgressTrace (ps : List ℚ) : List (List DismNotice) :=
  dismProgressTraceFrom initDismProgressState ps

/-- All notices of one run, in the order they are printed. -/
def dismProgressRun (ps : List ℚ) : List DismNotice :=
  (dismProgressTrace ps).flatten

/-- How many times a given notice is printed during one run. -/
def noticeCount (ps : List ℚ) (n : DismNotice) : ℕ :=
  (dismProgressRun ps).count n

/-- Notices of a sequence of runs: each run_dism_command call has its own
fresh local state, so runs are interpreted independently. -/
def dismSession (runs : List (List ℚ)) : List (List DismNotice) :=
  runs.map dismProgressRun

/-- Count of 65-crossing notices from a stored previous value and the
remaining updates (specification-side characterization). -/
def count65Aux : Option ℚ → List ℚ → ℕ
  | _, [] => 0
  | lp, p :: rest =>
      (if 65 ≤ p ∧ prevTruthyBelow lp 65 = true then 1 else 0) +
        count65Aux (some p) rest

/-- Number of adjacent crossings of 65 in a sequence whose first element
is given: a crossing is a pair (a, b) of consecutive values with
b ≥ 65, a nonzero and a < 65. -/
def crossCount65 : ℚ → List ℚ → ℕ
  | _, [] => 0
  | a, b :: rest =>
      (if 65 ≤ b ∧ a ≠ 0 ∧ a < 65 then 1 else 0) + crossCount65 b rest

/-- Number of updates of a progress sequence on which the 65-crossing
message is expected: those preceded by a stored value that is nonzero
and below 65 while the new value is at least 65. -/
def specCount65 : List ℚ → ℕ
  | [] => 0
  | a :: rest => crossCount65 a rest

/-- Numeric value of a run of decimal digit characters. -/
def digitsVal (ds : List Char) : ℕ :=
  ds.foldl (fun n c => 10 * n + (c.toNat - 48)) 0

/-- Matching the pattern of line 127 (digits, an optional decimal point,
further digits, then a percent sign) at the start of a fragment, returning
the captured numeric group.  A digit can never satisfy the trailing
percent sign, so regex backtracking cannot succeed where this greedy
scan fails: the scan is equivalent to the Python pattern anchored at
this position. -/
def dismMatchAt (s : List Char) : Option (List Char) :=
  if (s.takeWhile Char.isDigit).isEmpty then none
  else
    match s.dropWhile Char.isDigit with
    | '%' :: _ => some (s.takeWhile Char.isDigit)
    | '.' :: rest2 =>
        match rest2.dropWhile Char.isDigit with
        | '%' :: _ =>
            some (s.takeWhile Char.isDigit ++ '.' :: rest2.takeWhile Char.isDigit)
        | _ => none
    | _ => none

/-- Whitespace characters matched by the pattern's \s. -/
def isPySpace (c : Char) : Bool :=
  c == ' ' || c == '\t' || c == '\n' || c == '\r' || c == '\x0B' || c == '\x0C'

/-- Matching the pattern of line 238 (digits, optional whitespace, then a
percent sign) at the start of a fragment, returning the captured digit
group. -/
def sfcMatchAt (s : List Char) : Option (List Char) :=
  if (s.takeWhile Char.isDigit).isEmpty then none
  else
    match (s.dropWhile Char.isDigit).dropWhile isPySpace with
    | '%' :: _ => some (s.takeWhile Char.isDigit)
    | _ => none

/-- re.search: the pattern is tried at every start position, leftmost
first, and the first position that matches wins. -/
def reSearch (matchAt : List Char → Option (List Char)) :
    List Char → Option (List Char)
  | [] => none
  | c :: rest =>
      match matchAt (c :: rest) with
      | some g => some g
      | none => reSearch matchAt rest

/-- float() applied to a captured group of shape digits or digits.digits,
as an exact rational. -/
def groupToRat (g : List Char) : ℚ :=
  match g.dropWhile (fun c => c != '.') with
  | [] => (digitsVal g : ℚ)
  | _ :: fp =>
      mkRat (digitsVal (g.takeWhile (fun c => c != '.')) * 10 ^ fp.length
        + digitsVal fp) (10 ^ fp.length)

/-- Progress extraction of run_dism_command (lines 126-129): the first
match of the percentage pattern in the fragment, as a number; none when
the fragment has no match.  (Line 126 first tests that a percent sign
occurs in the line, which every match implies.) -/
def extractDismProgress (s : List Char) : Option ℚ :=
  (reSearch dismMatchAt s).map groupToRat

/-- Progress extraction of run_sfc (lines 237-240): the first match of
the integer percentage pattern, as a number; none when the fragment has
no match. -/
def extractSfcPercent (s : List Char) : Option ℕ :=
  (reSearch sfcMatchAt s).map digitsVal

/-- The 16-bit code units of a raw byte chunk read in little-endian
order (line 229's utf-16-le decoding); a trailing lone byte cannot form
a unit and, with errors ignored, is dropped rather than raised on. -/
def utf16leUnits : List ℕ → List ℕ
  | b0 :: b1 :: rest => (b0 + 256 * b1) :: utf16leUnits rest
  | _ => []

/-- A code unit in the high-surrogate range. -/
def isHighSurrogate (u : ℕ) : Bool := decide (0xD800 ≤ u) && decide (u ≤ 0xDBFF)

/-- A code unit in the low-surrogate range. -/
def isLowSurrogate (u : ℕ) : Bool := decide (0xDC00 ≤ u) && decide (u ≤ 0xDFFF)

/-- Scalar values of a code-unit sequence: a surrogate pair combines
into one supplementary scalar, and with errors ignored a lone surrogate
is dropped rather than raised on. -/
def utf16Scalars : List ℕ → List ℕ
  | [] => []
  | [u] => if isHighSurrogate u || isLowSurrogate u then [] else [u]
  | u :: l :: rest2 =>
      if isHighSurrogate u then
        if isLowSurrogate l then
          (0x10000 + (u - 0xD800) * 0x400 + (l - 0xDC00)) :: utf16Scalars rest2
        else
          utf16Scalars (l :: rest2)
      else if isLowSurrogate u then utf16Scalars (l :: rest2)
      else u :: utf16Scalars (l :: rest2)

/-- Lines 227-234 of run_sfc: decode a raw chunk as 16-bit
little-endian text with undecodable bytes ignored, then delete every
null character. -/
def decodeSfcChunk (chunk : List ℕ) : List ℕ :=
  (utf16Scalars (utf16leUnits chunk)).filter (fun c => c != 0)

/-- UTF-16LE encoding of a text of scalar values from the basic
multilingual plane, two bytes per scalar, low byte first: the claim's
raw bytes representing UTF-16LE text, null filler bytes included. -/
def utf16leEncode (cs : List ℕ) : List ℕ :=
  (cs.map (fun c => [c % 256, c / 256])).flatten

/-- Python's substring membership test `pat in s`: pat occurs
contiguously somewhere in s. -/
def containsSub (pat : List Char) : List Char → Bool
  | [] => pat.isEmpty
  | c :: rest => pat.isPrefixOf (c :: rest) || containsSub pat rest

/-- Result categories run_dism_command's classifier distinguishes
(lines 160-166). -/
inductive DismResult where
  | Healthy
  | RepairableCorruptionFound
  | CompletedSuccessfully
  | Unclassified
deriving Repr, DecidableEq

/-- Python str.lower() on the tool's ASCII output. -/
def toLowerStr (s : List Char) : List Char := s.map Char.toLower

/-- Lines 160-166: ordered substring checks over the accumulated output
text, first match wins; the first check is case-sensitive, the others
read the lowercased text. -/
def classifyDism (output_text : List Char) : DismResult :=
  if containsSub (str "No component store corruption detected") output_text then
    DismResult.Healthy
  else if containsSub (str "repairable") (toLowerStr output_text) then
    DismResult.RepairableCorruptionFound
  else if containsSub (str "successfully repaired") (toLowerStr output_text)
      || containsSub (str "completed successfully") (toLowerStr output_text) then
    DismResult.CompletedSuccessfully
  else DismResult.Unclassified

/-- Result categories run_sfc's classifier distinguishes
(lines 272-279). -/
inductive SfcResult where
  | NoViolations
  | RepairedCorruptFiles
  | UnrepairedCorruptFiles
  | Unclassified
  | NoResultText
deriving Repr, DecidableEq

/-- Python str.strip(): surrounding whitespace removed. -/
def stripStr (s : List Char) : List Char :=
  ((s.dropWhile isPySpace).reverse.dropWhile isPySpace).reverse

/-- Line 261's filter: a stripped line survives when it is nonempty and
mentions neither verification nor complete in any letter case. -/
def keepSfcLine (l : List Char) : Bool :=
  !l.isEmpty && !containsSub (str "verification") (toLowerStr l)
    && !containsSub (str "complete") (toLowerStr l)

/-- Lines 255-263: the final-result text built from the buffered
non-progress output: split into lines, each stripped; surviving lines
are concatenated, each followed by one space. -/
def buildFinalResult (result_buffer : List Char) : List Char :=
  (((result_buffer.splitOn '\n').map stripStr).filter keepSfcLine).foldl
    (fun acc l => acc ++ l ++ [' ']) []

/-- Lines 272-279: ordered substring checks over the lowercased
final-result text, first match wins, with a residual-text fallback. -/
def classifySfc (final_result : List Char) : SfcResult :=
  if containsSub (str "did not find any integrity violations") (toLowerStr final_result) then
    SfcResult.NoViolations
  else if containsSub (str "found corrupt files and successfully repaired") (toLowerStr final_result) then
    SfcResult.RepairedCorruptFiles
  else if containsSub (str "found corrupt files but was unable to fix") (toLowerStr final_result) then
    SfcResult.UnrepairedCorruptFiles
  else if !(stripStr final_result).isEmpty then SfcResult.Unclassified
  else SfcResult.NoResultText

/-- run_sfc's reported outcome once the process has exited (lines
265-281): the success flag compares the exit code with zero and the
classification reads only the final-result text — two independent
signals, neither overriding the other. -/
def sfcRunOutcome (returncode : ℤ) (result_buffer : List Char) :
    Bool × SfcResult :=
  (decide (returncode = 0), classifySfc (buildFinalResult result_buffer))

/-- Wall-clock timeout in seconds passed to process.wait at line 152. -/
def dismTimeoutSeconds : ℕ := 3600

/-- Wall-clock timeout in seconds passed to process.wait at line 265. -/
def sfcTimeoutSeconds : ℕ := 1800

/-- Actions a handler could take on the child process handle. -/
inductive ChildAction where
  | kill
  | terminate
  | waitFinished
deriving Repr, DecidableEq

/-- What run_dism_command returns from its TimeoutExpired handler,
together with the child-process actions that handler performs. -/
structure DismTimeoutOutcome where
  success : Bool
  captured : Option (List Char)
  childActions : List ChildAction
deriving Repr, DecidableEq

/-- The TimeoutExpired handler of lines 172-177: Popen.wait with a
timeout raises TimeoutExpired without stopping the child, and the
handler only prints, logs and returns, so it performs no action on the
child process. -/
def dismOnTimeout (capture_output : Bool) : DismTimeoutOutcome :=
  { success := false
  , captured := if capture_output then some (str "Timeout") else none
  , childActions := [] }

/-- The child is terminated or reaped before the outcome returns only
when some action was taken on its handle. -/
def childReaped (o : DismTimeoutOutcome) : Bool := !o.childActions.isEmpty

/-- How a single tool invocation can end: a normal exit, the wait timing
out, or any other exception from spawning or stream I/O, carrying
str(e). -/
inductive AttemptResult where
  | completed (returncode : ℤ) (output_text : List Char)
  | timedOut
  | raised (msg : List Char)
deriving Repr, DecidableEq

/-- run_dism_command's returned value as a function of how its single
attempt ends (lines 152-183): a total function — every exception
converts into a returned pair, none propagates to the caller. -/
def dismOutcome (capture_output : Bool) :
    AttemptResult → Bool × Option (List Char)
  | AttemptResult.completed rc out =>
      (decide (rc = 0), if capture_output then some out else none)
  | AttemptResult.timedOut =>
      (false, if capture_output then some (str "Timeout") else none)
  | AttemptResult.raised msg =>
      (false, if capture_output then some msg else none)

/-- run_sfc's returned success flag as a function of how its single
attempt ends (lines 265-286), likewise total. -/
def sfcOutcomeOf : AttemptResult → Bool
  | AttemptResult.completed rc _ => decide (rc = 0)
  | AttemptResult.timedOut => false
  | AttemptResult.raised _ => false

/-- The runner against an oracle listing how successive attempts would
end: it consumes exactly the first — neither runner has a retry loop
around Popen. -/
def dismRunOnce (capture_output : Bool) (attempts : List AttemptResult) :
    Option (Bool × Option (List Char)) :=
  match attempts with
  | [] => none
  | a :: _ => some (dismOutcome capture_output a)

/-- The full effect of run_dism_command's generic exception handler
(lines 178-183) for an exception with message msg: the console line of
line 179, the log line of line 180, and the returned value — the
message reaches the return value only when output is captured. -/
def dismOnRaised (capture_output : Bool) (msg : List Char) :
    List Char × List Char × (Bool × Option (List Char)) :=
  (str "[ERROR] " ++ msg, str "DISM failed: " ++ msg,
    dismOutcome capture_output (AttemptResult.raised msg))

/-- The full effect of run_sfc's generic exception handler (lines
283-286) for an exception with message msg: the console line of line
284, the log line of line 285, and the returned value — a bare failure
flag that never includes the message. -/
def sfcOnRaised (msg : List Char) : List Char × List Char × Bool :=
  (str "[ERROR] " ++ msg, str "SFC failed: " ++ msg, false)

theorem dismProgressStep_last (st : DismProgressState) (p : ℚ) :
    (dismProgressStep st p).1.last_progress = some p := by
  unfold dismProgressStep
  split_ifs <;> rfl

theorem dismProgressStep_pn (st : DismProgressState) (p : ℚ) :
    (dismProgressStep st p).1.pause_notified =
      (st.pause_notified || decide (62 ≤ p ∧ p ≤ 63)) := by
  unfold dismProgressStep
  split_ifs with h1 h2 h3
  · obtain ⟨ha, hb, hc⟩ := h1
    simp [ha, hb, hc]
  all_goals
    cases hpn : st.pause_notified with
    | true => simp
    | false =>
        have hr : ¬(62 ≤ p ∧ p ≤ 63) := fun hr => h1 ⟨hr.1, hr.2, hpn⟩
        simp [hr]

theorem dismProgressStep_count65 (st : DismProgressState) (p : ℚ) :
    (dismProgressStep st p).2.count DismNotice.check65Complete =
      (if 65 ≤ p ∧ prevTruthyBelow st.last_progress 65 = true then 1 else 0) := by
  unfold dismProgressStep
  split_ifs with h1 h2 h3
  · exact absurd (le_trans h2.1 h1.2.1) (by norm_num)
  · rfl
  · rfl
  · rfl
  · rfl

theorem dismProgressStep_countPause (st : DismProgressState) (p : ℚ) :
    (dismProgressStep st p).2.count DismNotice.pausePhase =
      (if 62 ≤ p ∧ p ≤ 63 ∧ st.pause_notified = false then 1 else 0) := by
  unfold dismProgressStep
  split_ifs with h1 h2 h3
  · rfl
  · rfl
  · rfl
  · rfl

theorem traceFrom_count65 (ps : List ℚ) : ∀ st : DismProgressState,
    ((dismProgressTraceFrom st ps).flatten).count DismNotice.check65Complete =
      count65Aux st.last_progress ps := by
  induction ps with
  | nil => intro st; rfl
  | cons p rest ih =>
      intro st
      simp only [dismProgressTraceFrom, List.flatten_cons, List.count_append,
        count65Aux, dismProgressStep_count65, ih, dismProgressStep_last]

theorem traceFrom_countPause (ps : List ℚ) : ∀ st : DismProgressState,
    ((dismProgressTraceFrom st ps).flatten).count DismNotice.pausePhase =
      (if st.pause_notified then 0
       else if ps.any (fun p => decide (62 ≤ p ∧ p ≤ 63)) then 1 else 0) := by
  induction ps with
  | nil =>
      intro st
      cases h : st.pause_notified <;> simp [dismProgressTraceFrom, h]
  | cons p rest ih =>
      intro st
      simp only [dismProgressTraceFrom, List.flatten_cons, List.count_append,
        dismProgressStep_countPause, ih, dismProgressStep_pn, List.any_cons]
      by_cases hr : 62 ≤ p ∧ p ≤ 63 <;>
        cases hpn : st.pause_notified <;>
          simp [hr, hpn]

theorem count65Aux_some_eq_cross (ps : List ℚ) : ∀ a : ℚ,
    count65Aux (some a) ps = crossCount65 a ps := by
  induction ps with
  | nil => intro a; rfl
  | cons b rest ih =>
      intro a
      simp only [count65Aux, crossCount65, ih]
      congr 1
      have : (prevTruthyBelow (some a) 65 = true) ↔ (a ≠ 0 ∧ a < 65) := by
        simp [prevTruthyBelow]
      simp [this, and_assoc]

theorem noticeCount_check65_eq_spec (ps : List ℚ) :
    noticeCount ps DismNotice.check65Complete = specCount65 ps := by
  have h := traceFrom_count65 ps initDismProgressState
  unfold noticeCount dismProgressRun dismProgressTrace
  rw [h]
  cases ps with
  | nil => rfl
  | cons a rest =>
      simp only [count65Aux, specCount65, initDismProgressState]
      rw [count65Aux_some_eq_cross]
      simp [prevTruthyBelow]

theorem crossCount65_of_ge (ps : List ℚ) : ∀ a : ℚ,
    List.Chain' (· ≤ ·) (a :: ps) → 65 ≤ a → crossCount65 a ps = 0 := by
  induction ps with
  | nil => intro a _ _; rfl
  | cons b rest ih =>
      intro a hchain ha
      obtain ⟨hab, htail⟩ := List.chain'_cons.mp hchain
      have hb : 65 ≤ b := le_trans ha hab
      have hcond : ¬(65 ≤ b ∧ a ≠ 0 ∧ a < 65) := by
        rintro ⟨-, -, hlt⟩
        exact absurd (lt_of_le_of_lt ha hlt) (lt_irrefl _)
      simp only [crossCount65, if_neg hcond, ih b htail hb]

theorem crossCount65_le_one (ps : List ℚ) : ∀ a : ℚ,
    List.Chain' (· ≤ ·) (a :: ps) → crossCount65 a ps ≤ 1 := by
  induction ps with
  | nil => intro a _; simp [crossCount65]
  | cons b rest ih =>
      intro a hchain
      obtain ⟨_, htail⟩ := List.chain'_cons.mp hchain
      by_cases hc : 65 ≤ b ∧ a ≠ 0 ∧ a < 65
      · simp only [crossCount65, if_pos hc, crossCount65_of_ge rest b htail hc.1]
        omega
      · simp only [crossCount65, if_neg hc, Nat.zero_add]
        exact ih b htail

/-- Claim C1 (amended): for every progress sequence fed to the DISM
progress interpreter, the 65-crossing message fires exactly on the
updates whose value is at least 65 and whose stored previous value is
present, nonzero and below 65 (a stored 0.0 is falsy in the source's
`last_progress and last_progress < 65.0` test, so it does not count);
consequently it fires at most once on sequences whose consecutive
values are non-decreasing, and a sequence starting at 70 with no prior
value never fires it. -/
theorem check65_crossing_characterized (ps : List ℚ) :
    noticeCount ps DismNotice.check65Complete = specCount65 ps ∧
      (List.Chain' (· ≤ ·) ps → noticeCount ps DismNotice.check65Complete ≤ 1) := by
  refine ⟨noticeCount_check65_eq_spec ps, fun hmono => ?_⟩
  rw [noticeCount_check65_eq_spec ps]
  cases ps with
  | nil => simp [specCount65]
  | cons a rest => exact crossCount65_le_one rest a hmono

/-- Claim C1 (counterexample): the sequence [0, 70] has a stored previous
value 0.0 (present and below 65) followed by 70, yet the code fires no
65-crossing message, because Python's truthiness test rejects 0.0; and
the non-monotone sequence [64, 66, 64, 66] fires the message twice,
against the claimed at-most-once bound. -/
theorem check65_claim_counterexample :
    noticeCount [0, 70] DismNotice.check65Complete = 0 ∧
      noticeCount [64, 66, 64, 66] DismNotice.check65Complete = 2 := by
  constructor <;> decide

/-- Claim C4: on every progress sequence whose consecutive values are
non-decreasing, the pause notification fires exactly once when some
value lands in the inclusive range [62, 63] and never fires otherwise;
the pause_notified flag bounds it to at most one emission per run. -/
theorem pause_notice_exactly_once_iff_hit (ps : List ℚ)
    (hmono : List.Chain' (· ≤ ·) ps) :
    noticeCount ps DismNotice.pausePhase =
      (if ps.any (fun p => decide (62 ≤ p ∧ p ≤ 63)) then 1 else 0) := by
  have h := traceFrom_countPause ps initDismProgressState
  unfold noticeCount dismProgressRun dismProgressTrace
  rw [h]
  rfl

/-- Claim C4 (witness): the non-decreasing sequence [10, 62.5, 70] hits
the range [62, 63] and receives exactly one pause notification. -/
theorem pause_notice_witness :
    noticeCount [10, mkRat 125 2, 70] DismNotice.pausePhase = 1 :=
  (pause_notice_exactly_once_iff_hit [10, mkRat 125 2, 70]
    (List.chain'_cons.mpr ⟨by decide,
      List.chain'_cons.mpr ⟨by decide, List.chain'_singleton _⟩⟩)).trans (by decide)

/-- Claim C5: the sequence [10, 40, 62.5, 64, 66, 91] produces exactly
one pause notification (on 62.5), one 65-crossing notification (on 66)
and one 90-crossing notification (on 91), in that order and nothing
else. -/
theorem roundtrip_sequence_notices :
    dismProgressRun [10, 40, mkRat 125 2, 64, 66, 91] =
      [DismNotice.pausePhase, DismNotice.check65Complete,
        DismNotice.nearly90Complete] := by
  decide

/-- Claim C10: every run_dism_command invocation starts from the fresh
state of lines 111-112 (no stored previous value, pause flag down), a
run's notices do not depend on the runs before it, and two runs over
identical progress sequences emit identical notices. -/
theorem fresh_state_per_run (earlier : List (List ℚ)) (ps : List ℚ) :
    initDismProgressState.last_progress = none ∧
      initDismProgressState.pause_notified = false ∧
      (dismSession (earlier ++ [ps])).getLast? = some (dismProgressRun ps) ∧
      dismSession [ps, ps] = [dismProgressRun ps, dismProgressRun ps] := by
  refine ⟨rfl, rfl, ?_, rfl⟩
  simp [dismSession]

theorem reSearch_eq_none_iff (matchAt : List Char → Option (List Char))
    (hnil : matchAt [] = none) (s : List Char) :
    reSearch matchAt s = none ↔ ∀ i, matchAt (s.drop i) = none := by
  induction s with
  | nil =>
      constructor
      · intro _ i
        rw [List.drop_nil]
        exact hnil
      · intro _
        rfl
  | cons c rest ih =>
      cases hm : matchAt (c :: rest) with
      | some g =>
          have hs : reSearch matchAt (c :: rest) = some g := by
            simp only [reSearch, hm]
          constructor
          · intro h
            rw [hs] at h
            exact absurd h (by simp)
          · intro h
            have h0 := h 0
            rw [List.drop_zero, hm] at h0
            exact absurd h0 (by simp)
      | none =>
          have hs : reSearch matchAt (c :: rest) = reSearch matchAt rest := by
            simp only [reSearch, hm]
          rw [hs, ih]
          constructor
          · intro h i
            cases i with
            | zero => rw [List.drop_zero]; exact hm
            | succ j => rw [List.drop_succ_cons]; exact h j
          · intro h j
            have := h (j + 1)
            rwa [List.drop_succ_cons] at this

theorem reSearch_eq_some (matchAt : List Char → Option (List Char))
    (s g : List Char) (h : reSearch matchAt s = some g) :
    ∃ i, matchAt (s.drop i) = some g ∧ ∀ j < i, matchAt (s.drop j) = none := by
  induction s with
  | nil => exact absurd h (by simp [reSearch])
  | cons c rest ih =>
      cases hm : matchAt (c :: rest) with
      | some g' =>
          have hs : reSearch matchAt (c :: rest) = some g' := by
            simp only [reSearch, hm]
          rw [hs] at h
          refine ⟨0, ?_, ?_⟩
          · rw [List.drop_zero, hm]
            exact h
          · intro j hj
            exact absurd hj (Nat.not_lt_zero j)
      | none =>
          have hs : reSearch matchAt (c :: rest) = reSearch matchAt rest := by
            simp only [reSearch, hm]
          rw [hs] at h
          obtain ⟨i, hi, hlt⟩ := ih h
          refine ⟨i + 1, ?_, ?_⟩
          · rwa [List.drop_succ_cons]
          · intro j hj
            cases j with
            | zero => rw [List.drop_zero]; exact hm
            | succ k =>
                rw [List.drop_succ_cons]
                exact hlt k (by omega)

/-- Claim C2 (amended): for every decoded text fragment, the progress
extractors return the numeric value of the first (leftmost) match of
their percentage pattern in the fragment — re.search scans left to
right, so a fragment with several percentage patterns yields the first,
not the last — and signal no progress (none) exactly when the fragment
contains no match; the pattern is digits optionally with a decimal
point followed by a percent sign for the repair tool, and plain integer
digits followed by a percent sign for the file checker. -/
theorem extractor_first_match (s : List Char) :
    (extractDismProgress s = none ↔ ∀ i, dismMatchAt (s.drop i) = none) ∧
      (∀ v, extractDismProgress s = some v →
        ∃ i g, dismMatchAt (s.drop i) = some g ∧ v = groupToRat g ∧
          ∀ j < i, dismMatchAt (s.drop j) = none) ∧
      (extractSfcPercent s = none ↔ ∀ i, sfcMatchAt (s.drop i) = none) ∧
      (∀ v, extractSfcPercent s = some v →
        ∃ i g, sfcMatchAt (s.drop i) = some g ∧ v = digitsVal g ∧
          ∀ j < i, sfcMatchAt (s.drop j) = none) := by
  refine ⟨?_, ?_, ?_, ?_⟩
  · rw [extractDismProgress, Option.map_eq_none']
    exact reSearch_eq_none_iff dismMatchAt rfl s
  · intro v hv
    rw [extractDismProgress, Option.map_eq_some'] at hv
    obtain ⟨g, hg, hval⟩ := hv
    obtain ⟨i, hi, hlt⟩ := reSearch_eq_some dismMatchAt s g hg
    exact ⟨i, g, hi, hval.symm, hlt⟩
  · rw [extractSfcPercent, Option.map_eq_none']
    exact reSearch_eq_none_iff sfcMatchAt rfl s
  · intro v hv
    rw [extractSfcPercent, Option.map_eq_some'] at hv
    obtain ⟨g, hg, hval⟩ := hv
    obtain ⟨i, hi, hlt⟩ := reSearch_eq_some sfcMatchAt s g hg
    exact ⟨i, g, hi, hval.symm, hlt⟩

/-- Claim C2 (counterexample): a fragment holding two percentage
patterns, 10 percent before 20 percent, extracts 10 — the first match,
not the most recent (last) one — for the repair tool and the file
checker alike. -/
theorem extractor_last_match_counterexample :
    extractDismProgress (str "10% then 20%") = some 10 ∧
      extractSfcPercent (str "10% then 20%") = some 10 := by
  constructor <;> decide

theorem utf16leUnits_encode (cs : List ℕ) (h : ∀ c ∈ cs, c < 0x10000) :
    utf16leUnits (utf16leEncode cs) = cs := by
  induction cs with
  | nil => rfl
  | cons c rest ih =>
      have hc : c < 0x10000 := h c (List.mem_cons_self c rest)
      have hrest : ∀ x ∈ rest, x < 0x10000 :=
        fun x hx => h x (List.mem_cons_of_mem c hx)
      show (c % 256 + 256 * (c / 256)) :: utf16leUnits (utf16leEncode rest)
        = c :: rest
      rw [ih hrest]
      congr 1
      omega

theorem utf16Scalars_of_no_surrogate (cs : List ℕ)
    (h : ∀ c ∈ cs, ¬(0xD800 ≤ c ∧ c ≤ 0xDFFF)) :
    utf16Scalars cs = cs := by
  induction cs with
  | nil => rfl
  | cons c rest ih =>
      have hc := h c (List.mem_cons_self c rest)
      have hrest : ∀ x ∈ rest, ¬(0xD800 ≤ x ∧ x ≤ 0xDFFF) :=
        fun x hx => h x (List.mem_cons_of_mem c hx)
      have hhi : isHighSurrogate c = false := by
        simp only [isHighSurrogate, Bool.and_eq_false_iff, decide_eq_false_iff_not,
          not_le]
        omega
      have hlo : isLowSurrogate c = false := by
        simp only [isLowSurrogate, Bool.and_eq_false_iff, decide_eq_false_iff_not,
          not_le]
        omega
      cases rest with
      | nil => simp [utf16Scalars, hhi, hlo]
      | cons l rest2 =>
          simp only [utf16Scalars, hhi, hlo, Bool.false_eq_true, if_false]
          rw [ih hrest]

/-- Claim C6: a raw byte chunk that is the UTF-16LE encoding of a text
of basic-multilingual-plane scalars (its null filler bytes included)
decodes, through the chunk reader's 16-bit little-endian decoding and
null removal, to exactly the text with its null characters removed: the
produced text holds no null character and every other character — the
percentage digits included — is intact, in order. -/
theorem sfc_chunk_decode_strips_nulls (cs : List ℕ)
    (h : ∀ c ∈ cs, c < 0x10000 ∧ ¬(0xD800 ≤ c ∧ c ≤ 0xDFFF)) :
    decodeSfcChunk (utf16leEncode cs) = cs.filter (fun c => c != 0) ∧
      ∀ c ∈ decodeSfcChunk (utf16leEncode cs), c ≠ 0 := by
  have h1 : utf16leUnits (utf16leEncode cs) = cs :=
    utf16leUnits_encode cs (fun c hc => (h c hc).1)
  have h2 : utf16Scalars cs = cs :=
    utf16Scalars_of_no_surrogate cs (fun c hc => (h c hc).2)
  constructor
  · rw [decodeSfcChunk, h1, h2]
  · intro c hc
    rw [decodeSfcChunk, h1, h2] at hc
    have := List.mem_filter.mp hc
    simpa using this.2

/-- Claim C6 (witness): the bytes encoding the text v7% with embedded
null characters decode to exactly v7% with no nulls and the digit and
percent characters intact. -/
theorem sfc_chunk_decode_witness :
    decodeSfcChunk (utf16leEncode [118, 0, 55, 0, 37]) = [118, 55, 37] :=
  (sfc_chunk_decode_strips_nulls [118, 0, 55, 0, 37] (by decide)).1.trans
    (by decide)

/-- Claim C7: the repair-tool result classifier applies its ordered
substring checks first-match-wins over the accumulated output text:
text containing the exact no-corruption sentence classifies Healthy;
otherwise text containing repairable in any letter case classifies
RepairableCorruptionFound, even when the no-corruption sentence is
absent; otherwise successfully-repaired or completed-successfully text
(case-insensitive) classifies CompletedSuccessfully; otherwise
Unclassified. -/
theorem dism_classifier_ordered_first_match (t : List Char) :
    (classifyDism t = DismResult.Healthy ↔
      containsSub (str "No component store corruption detected") t = true) ∧
    (classifyDism t = DismResult.RepairableCorruptionFound ↔
      (containsSub (str "No component store corruption detected") t = false ∧
        containsSub (str "repairable") (toLowerStr t) = true)) ∧
    (classifyDism t = DismResult.CompletedSuccessfully ↔
      (containsSub (str "No component store corruption detected") t = false ∧
        containsSub (str "repairable") (toLowerStr t) = false ∧
        (containsSub (str "successfully repaired") (toLowerStr t) = true ∨
          containsSub (str "completed successfully") (toLowerStr t) = true))) ∧
    (classifyDism t = DismResult.Unclassified ↔
      (containsSub (str "No component store corruption detected") t = false ∧
        containsSub (str "repairable") (toLowerStr t) = false ∧
        containsSub (str "successfully repaired") (toLowerStr t) = false ∧
        containsSub (str "completed successfully") (toLowerStr t) = false)) := by
  unfold classifyDism
  split_ifs with h1 h2 h3 <;> simp_all
  intro hsr
  cases h3 with
  | inl h => simp [hsr] at h
  | inr h => exact h

/-- Claim C8: the file-checker run's success flag is derived from the
exit code alone and its classification from the output text alone —
independent signals, the classification never overriding success — and
a run exiting 0 whose output text contains only the
found-corrupt-files-but-was-unable-to-fix sentence reports
success = true together with classification UnrepairedCorruptFiles. -/
theorem sfc_success_and_classification_independent (rc : ℤ) (buf : List Char) :
    ((sfcRunOutcome rc buf).1 = true ↔ rc = 0) ∧
      (sfcRunOutcome rc buf).2 = (sfcRunOutcome 0 buf).2 ∧
      sfcRunOutcome 0 (str "Windows Resource Protection found corrupt files but was unable to fix some of them")
        = (true, SfcResult.UnrepairedCorruptFiles) := by
  refine ⟨by simp [sfcRunOutcome], rfl, ?_⟩
  decide

/-- Claim C3 (the code evaluated at the failing input): the wait
timeouts are 3600 seconds for the repair tool and 1800 for the file
checker; on expiry the handler returns success = false (with the
Timeout text when output is captured) but performs no kill, terminate
or successful wait on the child, so the child process is neither
terminated nor reaped before the outcome is returned. -/
theorem timeout_outcome_no_child_cleanup :
    dismTimeoutSeconds = 3600 ∧ sfcTimeoutSeconds = 1800 ∧
      (dismOnTimeout true).success = false ∧
      (dismOnTimeout true).captured = some (str "Timeout") ∧
      (dismOnTimeout false).success = false ∧
      childReaped (dismOnTimeout true) = false ∧
      childReaped (dismOnTimeout false) = false :=
  ⟨rfl, rfl, rfl, rfl, rfl, rfl, rfl⟩

/-- Claim C9 (counterexample): two different exception messages leave
the file checker's returned outcome identical, and likewise the
non-capturing repair-tool runner's: on those paths the returned
outcome is a bare failure flag that cannot carry the exception's
message. -/
theorem runner_message_not_returned_counterexample :
    sfcOutcomeOf (AttemptResult.raised (str "spawn failed")) =
        sfcOutcomeOf (AttemptResult.raised (str "stream read failed")) ∧
      dismOutcome false (AttemptResult.raised (str "spawn failed")) =
        dismOutcome false (AttemptResult.raised (str "stream read failed")) ∧
      str "spawn failed" ≠ str "stream read failed" := by
  refine ⟨rfl, rfl, ?_⟩
  decide

/-- Claim C9 (amended): a spawn or stream-I-O exception during a run
converts to a returned outcome with success = false (the conversion is
a total function, so nothing propagates to the caller); the handlers
print and log the exception's message on every path, but the returned
value carries it only for the repair tool when output capture is on —
run_sfc and the non-capturing repair-tool path return a bare failure
flag without the message; and the runner consumes exactly the first
entry of its attempt oracle: each invocation is attempted once, with
no internal retry. -/
theorem runner_exception_handling_characterized
    (cap : Bool) (msg : List Char) (a : AttemptResult)
    (rest rest' : List AttemptResult) :
    (dismOutcome cap (AttemptResult.raised msg)).1 = false ∧
      sfcOutcomeOf (AttemptResult.raised msg) = false ∧
      dismOnRaised true msg =
        (str "[ERROR] " ++ msg, str "DISM failed: " ++ msg, (false, some msg)) ∧
      dismOnRaised false msg =
        (str "[ERROR] " ++ msg, str "DISM failed: " ++ msg, (false, none)) ∧
      sfcOnRaised msg =
        (str "[ERROR] " ++ msg, str "SFC failed: " ++ msg, false) ∧
      dismRunOnce cap (a :: rest) = some (dismOutcome cap a) ∧
      dismRunOnce cap (a :: rest) = dismRunOnce cap (a :: rest') :=
  ⟨rfl, rfl, rfl, rfl, rfl, rfl, rfl⟩
